import Mathlib

/-!
Shallow embedding of the goscript interpreter core: the metadata (type)
registry and zero values (`vm/src/metadata.rs`), the function-level code
generator (`codegen/src/func.rs`), the call-argument parsing loop
(`src/parser.rs`), and the reflection value accessors
(`engine/src/std/reflect.rs`).

Rust `Vec` arenas become Lean `List`s indexed by `Nat` keys; `HashMap`
becomes an association list whose insert prepends and whose lookup takes
the most recent binding; functions that can `panic!` / `unreachable!()`
or assert return `Option` / `Except`, with `none` / `.error` on the
panicking paths.  Components that the sources reference but whose files
are not part of the covered sources (`instruction.rs`, `objects.rs`,
`value.rs`, `token.rs`, the scanner) are modelled from the specification
and marked as such in their doc comments.
-/

/-- ValueType from `instruction.rs`.  Modelled from the spec: §3.1 lists the
tag set; `Package` is added because `codegen/src/func.rs` uses it as an
instruction annotation, and `Nil` because `GosValue` carries typed nils. -/
inductive ValueType where
  | Bool | Int | Int8 | Int16 | Int32 | Int64
  | Uint | Uint8 | Uint16 | Uint32 | Uint64
  | Float32 | Float64 | Complex64 | Complex128
  | Str | Array | Slice | Map | Struct | Channel | Closure
  | Interface | Pointer | Named | Metadata | Package | Nil
  deriving DecidableEq, Repr

/-- Opcode from `instruction.rs`.  Modelled from the spec: §4.A lists the
instruction classes; `ADD` and `SUB` stand for the fused binary operators
that compound stores reference (§4.E.2, E3). -/
inductive Opcode where
  | PUSH_TRUE | PUSH_FALSE | PUSH_IMM | PUSH_CONST
  | LOAD_LOCAL | LOAD_UPVALUE | LOAD_THIS_PKG_FIELD
  | STORE_LOCAL | STORE_UPVALUE | STORE_THIS_PKG_FIELD
  | LOAD_FIELD | LOAD_FIELD_IMM | LOAD_INDEX | LOAD_INDEX_IMM
  | STORE_FIELD | STORE_INDEX | STORE_DEREF
  | JUMP | JUMP_IF | JUMP_IF_NOT
  | PRE_CALL | CALL | CALL_ELLIPSIS
  | POP | NEW | RANGE | IMPORT | RETURN | RETURN_INIT_PKG
  | ADD | SUB
  deriving DecidableEq, Repr

/-- Modelled from the spec: §6.2's injective `code_to_index` packing of a
compound operator into `imm0` (`instruction.rs` is not among the sources);
each opcode is sent to a distinct integer. -/
def code2index (op : Opcode) : Int :=
  match op with
  | .PUSH_TRUE => 0 | .PUSH_FALSE => 1 | .PUSH_IMM => 2 | .PUSH_CONST => 3
  | .LOAD_LOCAL => 4 | .LOAD_UPVALUE => 5 | .LOAD_THIS_PKG_FIELD => 6
  | .STORE_LOCAL => 7 | .STORE_UPVALUE => 8 | .STORE_THIS_PKG_FIELD => 9
  | .LOAD_FIELD => 10 | .LOAD_FIELD_IMM => 11 | .LOAD_INDEX => 12
  | .LOAD_INDEX_IMM => 13 | .STORE_FIELD => 14 | .STORE_INDEX => 15
  | .STORE_DEREF => 16 | .JUMP => 17 | .JUMP_IF => 18 | .JUMP_IF_NOT => 19
  | .PRE_CALL => 20 | .CALL => 21 | .CALL_ELLIPSIS => 22
  | .POP => 23 | .NEW => 24 | .RANGE => 25 | .IMPORT => 26
  | .RETURN => 27 | .RETURN_INIT_PKG => 28 | .ADD => 29 | .SUB => 30

/-- Modelled from the spec: `OpIndex` is the signed 16-bit immediate type
(§6.2, glossary); this is the range test behind `OpIndex::try_from`. -/
def opIndexOk (v : Int) : Bool := decide (-32768 ≤ v ∧ v ≤ 32767)

/-- MetadataKey: an integer key into the metadata arena. -/
abbrev MetadataKey := Nat

/-- Handle type `GosMetadata` from `vm/src/metadata.rs`: a metadata handle with a
pointer depth 0..7 encoded in the constructor and an `is_type` flag. -/
inductive GosMetadata where
  | Untyped
  | NonPtr (k : MetadataKey) (t : Bool)
  | Ptr1 (k : MetadataKey) (t : Bool)
  | Ptr2 (k : MetadataKey) (t : Bool)
  | Ptr3 (k : MetadataKey) (t : Bool)
  | Ptr4 (k : MetadataKey) (t : Bool)
  | Ptr5 (k : MetadataKey) (t : Bool)
  | Ptr6 (k : MetadataKey) (t : Bool)
  | Ptr7 (k : MetadataKey) (t : Bool)
  deriving DecidableEq, Repr

/-- Source `GosMetadata::ptr_to`: increment pointer depth; the source's
`unreachable!()` paths (on `Untyped` and at depth 7) are `none`. -/
def GosMetadata.ptr_to : GosMetadata → Option GosMetadata
  | .Untyped => none
  | .NonPtr k t => some (.Ptr1 k t)
  | .Ptr1 k t => some (.Ptr2 k t)
  | .Ptr2 k t => some (.Ptr3 k t)
  | .Ptr3 k t => some (.Ptr4 k t)
  | .Ptr4 k t => some (.Ptr5 k t)
  | .Ptr5 k t => some (.Ptr6 k t)
  | .Ptr6 k t => some (.Ptr7 k t)
  | .Ptr7 _ _ => none

/-- Source `GosMetadata::unptr_to`: decrement pointer depth; the source's
`unreachable!()` paths (on `Untyped` and at depth 0) are `none`. -/
def GosMetadata.unptr_to : GosMetadata → Option GosMetadata
  | .Untyped => none
  | .NonPtr _ _ => none
  | .Ptr1 k t => some (.NonPtr k t)
  | .Ptr2 k t => some (.Ptr1 k t)
  | .Ptr3 k t => some (.Ptr2 k t)
  | .Ptr4 k t => some (.Ptr3 k t)
  | .Ptr5 k t => some (.Ptr4 k t)
  | .Ptr6 k t => some (.Ptr5 k t)
  | .Ptr7 k t => some (.Ptr6 k t)

/-- Source `GosMetadata::recv_meta_key`: the key behind a receiver handle; only
depth 0 and depth 1 are allowed (`unreachable!()` otherwise). -/
def GosMetadata.recv_meta_key : GosMetadata → Option MetadataKey
  | .NonPtr k _ => some k
  | .Ptr1 k _ => some k
  | _ => none

/-- Iterate a fallible step `d` times, propagating failure. -/
def iterM (f : GosMetadata → Option GosMetadata) : Nat → GosMetadata → Option GosMetadata
  | 0, m => some m
  | n + 1, m => (f m).bind (iterM f n)

/-- FunctionKey: an integer key into the function arena. -/
abbrev FunctionKey := Nat

/-! Types `GosValue` from `value.rs` and `StructObj` from `objects.rs`
(the two files are not among the sources; the variants and payloads are
modelled from the spec §3.2 and from how `metadata.rs` and `reflect.rs`
build and destructure them).  Heap-backed kinds other than `Struct` carry
an opaque arena key; an `Rc<RefCell<StructObj>>` cell is embedded as an
inline `StructObj` value, and the one shared-cell mutation the sources
perform (the struct zero-instance fix-up) is applied to the copy stored
in the metadata entry, which is the copy the registry exposes.  Floating
payloads appear only as the literal `0.0`, modelled as rationals. -/
mutual

inductive GosValue where
  | Nil (m : GosMetadata)
  | Bool (b : Bool)
  | Int (i : Int)
  | Int8 (i : Int)
  | Int16 (i : Int)
  | Int32 (i : Int)
  | Int64 (i : Int)
  | Uint (i : Int)
  | Uint8 (i : Int)
  | Uint16 (i : Int)
  | Uint32 (i : Int)
  | Uint64 (i : Int)
  | Float32 (f : Rat)
  | Float64 (f : Rat)
  | Complex64 (r i : Rat)
  | Complex128 (r i : Rat)
  | Str (s : String)
  | ArrayV (k : Nat)
  | SliceV (k : Nat)
  | MapV (k : Nat)
  | Struct (s : StructObj)
  | ChannelV (k : Nat)
  | ClosureV (k : Nat)
  | InterfaceV (k : Nat)
  | PointerV (k : Nat)
  | Named (v : GosValue) (m : GosMetadata)
  | MetadataV (m : GosMetadata)

inductive StructObj where
  | mk (dark : Bool) (meta : GosMetadata) (fields : List GosValue)

end

/-- Accessor for the `meta` field of a `StructObj`. -/
def StructObj.meta : StructObj → GosMetadata
  | .mk _ m _ => m

/-- Accessor for the `fields` field of a `StructObj`. -/
def StructObj.fieldVals : StructObj → List GosValue
  | .mk _ _ fs => fs

/-- Accessor for the `dark` field of a `StructObj`. -/
def StructObj.dark : StructObj → Bool
  | .mk d _ _ => d

/-- The mutation `s.borrow_mut().meta = gosm` on a struct cell. -/
def StructObj.setMeta : StructObj → GosMetadata → StructObj
  | .mk d _ fs, m => .mk d m fs

/-- Modelled from the spec: the runtime tag of a value (§3.2, the union has
one variant per ValueType; `value.rs` is not among the sources). -/
def GosValue.typ : GosValue → ValueType
  | .Nil _ => .Nil
  | .Bool _ => .Bool
  | .Int _ => .Int
  | .Int8 _ => .Int8
  | .Int16 _ => .Int16
  | .Int32 _ => .Int32
  | .Int64 _ => .Int64
  | .Uint _ => .Uint
  | .Uint8 _ => .Uint8
  | .Uint16 _ => .Uint16
  | .Uint32 _ => .Uint32
  | .Uint64 _ => .Uint64
  | .Float32 _ => .Float32
  | .Float64 _ => .Float64
  | .Complex64 _ _ => .Complex64
  | .Complex128 _ _ => .Complex128
  | .Str _ => .Str
  | .ArrayV _ => .Array
  | .SliceV _ => .Slice
  | .MapV _ => .Map
  | .Struct _ => .Struct
  | .ChannelV _ => .Channel
  | .ClosureV _ => .Closure
  | .InterfaceV _ => .Interface
  | .PointerV _ => .Pointer
  | .Named _ _ => .Named
  | .MetadataV _ => .Metadata

/-- Modelled from the spec: `copy_semantic` (§4.B; `value.rs` is not among
the sources) deep-clones value-kinds and duplicates handles for
reference-kinds.  In this embedding heap cells are immutable inline trees,
so both the element-by-element clone and the handle duplication are the
identity on the represented value. -/
def copySemantic (v : GosValue) : GosValue := v

/-- Association-list model of `HashMap<String, OpIndex>`: lookup takes the
most recent binding. -/
def mapGet : List (String × Int) → String → Option Int
  | [], _ => none
  | (k, v) :: rest, name => if k = name then some v else mapGet rest name

/-- Association-list model of `HashMap::insert`: prepend the new binding. -/
def mapInsert (m : List (String × Int)) (k : String) (v : Int) : List (String × Int) :=
  (k, v) :: m

/-- Struct or interface member layout `Fields` from `vm/src/metadata.rs`. -/
structure Fields where
  fields : List GosMetadata
  mapping : List (String × Int)

/-- Method slot `MethodDesc` from `vm/src/metadata.rs`. -/
structure MethodDesc where
  pointer_recv : Bool
  func : Option FunctionKey
  deriving DecidableEq, Repr

/-- Method table `Methods` from `vm/src/metadata.rs`; the
`Rc<RefCell<MethodDesc>>` cells are embedded inline (their shared mutation
is exercised only by `set_method_code`, which no claim here observes). -/
structure Methods where
  members : List MethodDesc
  mapping : List (String × Int)

/-- Signature metadata `SigMetadata` from `vm/src/metadata.rs`. -/
structure SigMetadata where
  recv : Option GosMetadata
  params : List GosMetadata
  results : List GosMetadata
  variadic : Option GosMetadata
  params_type : List ValueType

/-- Registry entry `MetadataType` from `vm/src/metadata.rs`. -/
inductive MetadataType where
  | Bool | Int | Int8 | Int16 | Int32 | Int64
  | Uint | Uint8 | Uint16 | Uint32 | Uint64
  | Float32 | Float64 | Complex64 | Complex128
  | Str (zero : GosValue)
  | Struct (f : Fields) (zero : GosValue)
  | Signature (s : SigMetadata)
  | Slice (elem : GosMetadata)
  | Map (k v : GosMetadata)
  | Interface (f : Fields)
  | Channel
  | Named (m : Methods) (underlying : GosMetadata)

/-- The metadata arena `MetadataObjs`, keyed by `MetadataKey`. -/
abbrev MetadataObjs := List MetadataType

/-- The slice of `VMObjects` these claims touch: the metadata arena and the
struct arena that roots the zero-instance cells. -/
structure VMObjects where
  metas : MetadataObjs
  structs : List StructObj

/-- Source `GosMetadata::zero_val_impl`.  The Rust recursion through a
`Named` entry's underlying metadata is not structural on any argument, so
it is given explicit fuel, consumed only at that recursive call; `none`
on fuel exhaustion corresponds to the divergence a (never constructed,
`new_named` asserts it) `Named`-cycle would cause in the source, and
`none` on a missing key to the arena indexing panic. -/
def zeroValImpl : Nat → GosMetadata → MetadataObjs → Option GosValue
  | fuel, m, mobjs =>
    match m with
    | .Untyped => some (.Nil m)
    | .NonPtr k _ =>
      match mobjs.get? k with
      | none => none
      | some mt =>
        match mt with
        | .Bool => some (.Bool false)
        | .Int => some (.Int 0)
        | .Int8 => some (.Int8 0)
        | .Int16 => some (.Int16 0)
        | .Int32 => some (.Int32 0)
        | .Int64 => some (.Int64 0)
        | .Uint => some (.Uint 0)
        | .Uint8 => some (.Uint8 0)
        | .Uint16 => some (.Uint16 0)
        | .Uint32 => some (.Uint32 0)
        | .Uint64 => some (.Uint64 0)
        | .Float32 => some (.Float32 0)
        | .Float64 => some (.Float64 0)
        | .Complex64 => some (.Complex64 0 0)
        | .Complex128 => some (.Complex128 0 0)
        | .Str s => some s
        | .Struct _ s => some (copySemantic s)
        | .Signature _ => some (.Nil m)
        | .Slice _ => some (.Nil m)
        | .Map _ _ => some (.Nil m)
        | .Interface _ => some (.Nil m)
        | .Channel => some (.Nil m)
        | .Named _ gm =>
          match fuel with
          | 0 => none
          | fuel' + 1 => (zeroValImpl fuel' gm mobjs).map (fun v => .Named v gm)
    | _ => some (.Nil m)

/-- Source `GosMetadata::zero_val`, delegating to `zero_val_impl`; the
fuel `mobjs.length + 1` covers any acyclic chain of `Named` wrappers. -/
def zero_val (m : GosMetadata) (mobjs : MetadataObjs) : Option GosValue :=
  zeroValImpl (mobjs.length + 1) m mobjs

/-- The handle's immediate registry entry is not a `Named` entry (the
"`Named` never wraps `Named`" construction invariant, `new_named`'s
`debug_assert`). -/
def notNamedAt (m : GosMetadata) (mobjs : MetadataObjs) : Bool :=
  match m with
  | .NonPtr k _ =>
    match mobjs.get? k with
    | some (.Named _ _) => false
    | _ => true
  | _ => true

/-- Source `GosMetadata::new_struct`: build the zero instance from the
field zeros with a placeholder meta, root it, insert the `Struct` entry,
then repair the zero instance's meta to the fresh handle through the
entry just inserted.  `none` on the `unreachable!()` arms and on a field
whose zero value cannot be computed. -/
def new_struct (f : Fields) (objs : VMObjects) : Option (GosMetadata × VMObjects) :=
  match f.fields.mapM (fun x => zero_val x objs.metas) with
  | none => none
  | some field_zeros =>
    let struct_val : StructObj := .mk false .Untyped field_zeros
    let gos_struct : GosValue := .Struct struct_val
    let structs' := objs.structs ++ [struct_val]
    let key := objs.metas.length
    let metas' := objs.metas ++ [MetadataType.Struct f gos_struct]
    let gosm := GosMetadata.NonPtr key false
    match metas'.get? key with
    | some (.Struct f0 v) =>
      match v with
      | .Struct s =>
        some (gosm, ⟨metas'.set key (.Struct f0 (.Struct (s.setMeta gosm))), structs'⟩)
      | _ => none
    | _ => none

/-- Source `GosMetadata::add_method`: push an unresolved method slot and
map the name to the new last index; `none` on the `unreachable!()` arms. -/
def add_method (self : GosMetadata) (name : String) (pointer_recv : Bool)
    (metas : MetadataObjs) : Option MetadataObjs :=
  match self.recv_meta_key with
  | none => none
  | some k =>
    match metas.get? k with
    | some (.Named m u) =>
      let members' := m.members ++ [⟨pointer_recv, none⟩]
      let mapping' := mapInsert m.mapping name ((members'.length : Int) - 1)
      some (metas.set k (.Named ⟨members', mapping'⟩ u))
    | _ => none

/-- Source `GosMetadata::method_index` (via `get_named_metadate`): look the
name up in the named type's method table; `none` on the `unreachable!()`
arms and on the `HashMap` indexing panic for an absent name. -/
def method_index (self : GosMetadata) (name : String) (metas : MetadataObjs) : Option Int :=
  match self.recv_meta_key with
  | none => none
  | some k =>
    match metas.get? k with
    | some (.Named m _) => mapGet m.mapping name
    | _ => none

/-- A sequence of further `add_method` calls on the same receiver. -/
def addMethods (self : GosMetadata) : List (String × Bool) → MetadataObjs → Option MetadataObjs
  | [], metas => some metas
  | (n, b) :: rest, metas =>
    match add_method self n b metas with
    | none => none
    | some ms => addMethods self rest ms

/-- Instruction record from `instruction.rs`.  Modelled from the spec:
one opcode, up to three ValueType tags, and two signed 16-bit immediates
`imm0`, `imm1` (§4.A, §6.2). -/
structure Instruction where
  op : Opcode
  t0 : Option ValueType
  t1 : Option ValueType
  t2 : Option ValueType
  imm0 : Int
  imm1 : Int
  deriving DecidableEq, Repr

/-- Modelled from the spec: `Instruction::new` with its optional single
immediate; the lone immediate occupies `imm0` (§6.2's packing, with the
unused slot zero). -/
def Instruction.new (op : Opcode) (t0 t1 t2 : Option ValueType) (imm : Option Int) : Instruction :=
  ⟨op, t0, t1, t2, imm.getD 0, 0⟩

/-- Modelled from the spec: `Instruction::set_imm2` packs both immediates
(§6.2). -/
def Instruction.set_imm2 (i : Instruction) (a b : Int) : Instruction :=
  { i with imm0 := a, imm1 := b }

/-- The slice of `FunctionVal` (from `objects.rs`, modelled from the spec
§3.4) that the emit primitives under proof read or write: the constant
pool and the code buffer. -/
structure FunctionVal where
  consts : List GosValue
  code : List Instruction

/-- Modelled from the spec: `FunctionVal::emit_inst`, the low-level append
operation (§4.D). -/
def FunctionVal.emit_inst (f : FunctionVal) (op : Opcode) (t0 t1 t2 : Option ValueType)
    (imm : Option Int) : FunctionVal :=
  { f with code := f.code ++ [Instruction.new op t0 t1 t2 imm] }

/-- Modelled from the spec: `FunctionVal::emit_code` appends a bare
opcode (§4.D). -/
def FunctionVal.emit_code (f : FunctionVal) (op : Opcode) : FunctionVal :=
  f.emit_inst op none none none none

/-- Modelled from the spec: `FunctionVal::const_val` fetches a constant by
pool index (§4.D); `none` on an out-of-range index. -/
def FunctionVal.const_val (f : FunctionVal) (i : Int) : Option GosValue :=
  if i < 0 then none else f.consts.get? i.toNat

/-- Storage-site handle `EntIndex` from `objects.rs`, modelled from the
spec §3.4. -/
inductive EntIndex where
  | Const (i : Int)
  | LocalVar (i : Int)
  | UpValue (i : Int)
  | PackageMember (i : Int)
  | BuiltIn (op : Opcode)
  | Blank
  deriving DecidableEq, Repr

/-- Record `IndexSelInfo` from `codegen/src/func.rs`. -/
structure IndexSelInfo where
  index : Int
  t1 : ValueType
  t2 : ValueType
  is_index : Bool
  deriving DecidableEq, Repr

/-- Type `LeftHandSide` from `codegen/src/func.rs`. -/
inductive LeftHandSide where
  | Primitive (e : EntIndex)
  | IndexSelExpr (info : IndexSelInfo)
  | Deref (i : Int)
  deriving DecidableEq, Repr

/-- The two ways `emit_store` can abort: an `unreachable!()` arm for a
non-assignable left-hand side, or the `assert!` on `rhs_index` and the
compound op. -/
inductive EmitErr where
  | unreachableLhs
  | assertionFailed
  deriving DecidableEq, Repr

/-- Source `FuncGen::emit_load` for `FunctionVal`; `none` models the
`unreachable!()` on `Blank` and the pool-indexing panic. -/
def emit_load (f : FunctionVal) (index : EntIndex) (typ : ValueType) : Option FunctionVal :=
  match index with
  | .Const i =>
    match f.const_val i with
    | none => none
    | some v =>
      match v with
      | .Bool true => some (f.emit_code .PUSH_TRUE)
      | .Bool false => some (f.emit_code .PUSH_FALSE)
      | .Int n =>
        if opIndexOk n then
          some (f.emit_inst .PUSH_IMM (some typ) none none (some n))
        else
          some (f.emit_inst .PUSH_CONST (some typ) none none (some i))
      | _ => some (f.emit_inst .PUSH_CONST (some typ) none none (some i))
  | .LocalVar i => some (f.emit_inst .LOAD_LOCAL (some typ) none none (some i))
  | .UpValue i => some (f.emit_inst .LOAD_UPVALUE (some typ) none none (some i))
  | .PackageMember i => some (f.emit_inst .LOAD_THIS_PKG_FIELD (some typ) none none (some i))
  | .BuiltIn op => some (f.emit_code op)
  | .Blank => none

/-- Source `FuncGen::emit_store` for `FunctionVal`: early return on a
blank left-hand side; choose opcode, slot and type tags by the left-hand
side's variant; assert `rhs_index == -1 || op.is_none()`; pack `imm0`
from the compound op (via `code2index`) or from `rhs_index`, and `imm1`
from the slot, then push.  The early-return test
`if let Primitive(index) = lhs { if Blank == index { return } }` is the
predicate `isBlankLhs`. -/
def isBlankLhs : LeftHandSide → Bool
  | .Primitive .Blank => true
  | _ => false

def emit_store (f : FunctionVal) (lhs : LeftHandSide) (rhs_index : Int)
    (op : Option Opcode) (typ : ValueType) : Except EmitErr FunctionVal :=
  if isBlankLhs lhs then .ok f
  else
    let tup : Option (Opcode × Int × Option ValueType × Option ValueType) :=
      match lhs with
      | .Primitive e =>
        match e with
        | .Const _ => none
        | .LocalVar i => some (.STORE_LOCAL, i, none, none)
        | .UpValue i => some (.STORE_UPVALUE, i, none, none)
        | .PackageMember i => some (.STORE_THIS_PKG_FIELD, i, some .Package, none)
        | .BuiltIn _ => none
        | .Blank => none
      | .IndexSelExpr info =>
        some (if info.is_index then .STORE_INDEX else .STORE_FIELD,
              info.index, some info.t1, some info.t2)
      | .Deref i => some (.STORE_DEREF, i, none, none)
    match tup with
    | none => .error .unreachableLhs
    | some (code, i, t1, t2) =>
      let inst := Instruction.new code (some typ) t1 t2 none
      if rhs_index = -1 ∨ op = none then
        let imm0 := match op with
          | some o => code2index o
          | none => rhs_index
        .ok { f with code := f.code ++ [inst.set_imm2 imm0 i] }
      else
        .error .assertionFailed

/-- The slot index of an assignable left-hand side (the value that
`emit_store` packs into `imm1`); `none` exactly on the blank and
non-assignable variants. -/
def lhsSlot : LeftHandSide → Option Int
  | .Primitive (.LocalVar i) => some i
  | .Primitive (.UpValue i) => some i
  | .Primitive (.PackageMember i) => some i
  | .IndexSelExpr info => some info.index
  | .Deref i => some i
  | _ => none

/-- Source `FuncGen::emit_import` for `FunctionVal`: emit `IMPORT`, build
the four-instruction guarded initializer call, emit `JUMP_IF_NOT` with
the guarded block's length as offset, then append the block. -/
def emit_import (f : FunctionVal) (index : Int) : FunctionVal :=
  let f1 := f.emit_inst .IMPORT none none none (some index)
  let cd : List Instruction := [
    Instruction.new .PUSH_IMM none none none (some 0),
    Instruction.new .LOAD_FIELD (some .Package) (some .Int) none none,
    Instruction.new .PRE_CALL (some .Closure) none none none,
    Instruction.new .CALL none none none none]
  let offset : Int := cd.length
  let f2 := f1.emit_inst .JUMP_IF_NOT none none none (some offset)
  { f2 with code := f2.code ++ cd }

/-- Token vocabulary from `token.rs` (not among the sources): the
constructors `parse_call_or_conversion` and its helpers inspect, plus an
opaque constructor standing for every other token kind. -/
inductive Token where
  | ILLEGAL (s : String)
  | COMMENT (s : String)
  | SEMICOLON (real : Bool)
  | LPAREN | RPAREN | LBRACE | RBRACE | COMMA | ELLIPSIS | EOF
  | IDENT (s : String)
  | OTHER (n : Nat) (s : String)
  deriving DecidableEq, Repr

/-- Modelled from the source usage of `Token::text`: a display string for
a token (quote decorations of the original messages are elided; no claim
observes message contents). -/
def Token.text : Token → String
  | .ILLEGAL s => s
  | .COMMENT s => s
  | .SEMICOLON _ => ";"
  | .LPAREN => "("
  | .RPAREN => ")"
  | .LBRACE => "<lbrace>"
  | .RBRACE => "<rbrace>"
  | .COMMA => ","
  | .ELLIPSIS => "..."
  | .EOF => "EOF"
  | .IDENT s => s
  | .OTHER _ s => s

/-- Source positions (`position::Pos`). -/
abbrev Pos := Nat

/-- The expression shapes these claims observe: `Expr::Call` with the
`CallExpr` payload from `ast.rs`, a `BadExpr`, and an opaque constructor
standing for every other expression production. -/
inductive Expr where
  | Call (func : Expr) (lparen : Pos) (args : List Expr) (ellipsis : Option Pos) (rparen : Pos)
  | Bad (low high : Pos)
  | Opaque (n : Nat)

/-- The slice of the `Parser` state that `parse_call_or_conversion` and
its helpers read or write.  The external scanner (out of scope per §1) is
modelled as its remaining output: a list of tokens paired with the
position the scanner reports after producing each. -/
structure PState where
  rest : List (Token × Pos)
  pos : Pos
  token : Token
  expr_level : Int
  errors : List (Pos × String)
  trace : Bool
  indent : Int

/-- Source `Parser::error_string` (the file-position translation of the
external reporter is elided; the position itself is recorded). -/
def PState.error_string (s : PState) (pos : Pos) (msg : String) : PState :=
  { s with errors := s.errors ++ [(pos, msg)] }

/-- Source `Parser::error_expected`: prefix with "expected", and when the
report is at the current token add what was found. -/
def PState.error_expected (s : PState) (pos : Pos) (msg : String) : PState :=
  let mstr := "expected " ++ msg
  let mstr :=
    if pos = s.pos then
      match s.token with
      | .SEMICOLON real => if !real then mstr ++ ", found newline" else mstr
      | t => mstr ++ ", found " ++ t.text
    else mstr
  s.error_string pos mstr

/-- The scan-and-skip-comments loop inside `Parser::next`; at the end of
the stream the scanner keeps reporting `EOF` (position unchanged,
modelled as `none`). -/
def scanSkip : List (Token × Pos) → Token × Option Pos × List (Token × Pos)
  | [] => (.EOF, none, [])
  | (t, p) :: rest =>
    match t with
    | .COMMENT _ => scanSkip rest
    | _ => (t, some p, rest)

/-- Source `Parser::next`: advance to the next non-comment token (trace
printing has no effect on parser state). -/
def PState.next (s : PState) : PState :=
  match scanSkip s.rest with
  | (t, some p, rest) => { s with token := t, pos := p, rest := rest }
  | (t, none, rest) => { s with token := t, rest := rest }

/-- Source `Parser::expect`: report when the current token differs, then
advance; returns the position before advancing. -/
def PState.expect (s : PState) (token : Token) : Pos × PState :=
  let pos := s.pos
  let s := if s.token ≠ token then s.error_expected pos token.text else s
  (pos, s.next)

/-- Source `Parser::expect_closing`: like `expect`, with a friendlier
report when the closer is an automatically inserted semicolon. -/
def PState.expect_closing (s : PState) (token : Token) (context : String) : Pos × PState :=
  match token with
  | .SEMICOLON false =>
    let s := s.error_string s.pos ("missing comma before newline in " ++ context)
    (s.next).expect token
  | _ => s.expect token

/-- Source `Parser::at_comma`: true on a comma; true with a report when
the follow token is already here; false otherwise. -/
def PState.at_comma (s : PState) (context : String) (follow : Token) : Bool × PState :=
  match s.token with
  | .COMMA => (true, s)
  | t =>
    if t = follow then
      let msg := "missing comma"
      let msg :=
        match t with
        | .SEMICOLON real => if !real then msg ++ " before newline" else msg
        | _ => msg
      let msg := msg ++ " in " ++ context
      (true, s.error_string s.pos msg)
    else
      (false, s)

/-- Source `Parser::trace_begin` (only the indent survives in the state;
printing is external). -/
def PState.trace_begin (s : PState) : PState :=
  if s.trace then { s with indent := s.indent + 1 } else s

/-- Source `Parser::trace_end`. -/
def PState.trace_end (s : PState) : PState :=
  if s.trace then { s with indent := s.indent - 1 } else s

/-- The argument loop of `Parser::parse_call_or_conversion`, with the
source's condition `token != RPAREN && token != EOF && ellipsis.is_some()`.
The body's call into the expression parser is the parameter `rhsOrType`
(quantifying over every behavior of `parse_rhs_or_type`), and the
`while` is given fuel, consumed once per iteration. -/
def callArgsLoop (rhsOrType : PState → Expr × PState) :
    Nat → PState → List Expr → Option Pos → PState × List Expr × Option Pos
  | 0, s, list, ellipsis => (s, list, ellipsis)
  | fuel + 1, s, list, ellipsis =>
    if s.token ≠ .RPAREN ∧ s.token ≠ .EOF ∧ ellipsis.isSome then
      let (e, s) := rhsOrType s
      let list := list ++ [e]
      let (ellipsis, s) :=
        if s.token = .ELLIPSIS then (some s.pos, s.next) else (ellipsis, s)
      let (c, s) := s.at_comma "argument list" .RPAREN
      if c then callArgsLoop rhsOrType fuel s.next list ellipsis
      else (s, list, ellipsis)
    else (s, list, ellipsis)

/-- Source `Parser::parse_call_or_conversion`: expect the opening paren,
run the argument loop starting from an empty list and no ellipsis, expect
the closing paren, and build the `CallExpr`. -/
def parse_call_or_conversion (rhsOrType : PState → Expr × PState) (fuel : Nat)
    (s : PState) (func : Expr) : Expr × PState :=
  let s := s.trace_begin
  let (lparen, s) := s.expect .LPAREN
  let s := { s with expr_level := s.expr_level + 1 }
  let (s, list, ellipsis) := callArgsLoop rhsOrType fuel s [] none
  let s := { s with expr_level := s.expr_level - 1 }
  let (rparen, s) := s.expect_closing .RPAREN "argument list"
  let s := s.trace_end
  (.Call func lparen list ellipsis rparen, s)

/-- Modelled from the spec: `GosValue::new_str` wraps a string payload
(`value.rs` is not among the sources). -/
def new_str (s : String) : GosValue := .Str s

/-- Modelled from the spec: the parameterless `GosValue::new_nil` used by
the reflection placeholders (`value.rs` is not among the sources); a nil
carrying the untyped metadata handle. -/
def new_nil : GosValue := .Nil .Untyped

/-- Wrapper `StdValue` from `engine/src/std/reflect.rs`. -/
structure StdValue where
  val : GosValue

/-- Source `StdValue::bool_val`: a placeholder pair of nils. -/
def StdValue.bool_val (_ : StdValue) : GosValue × GosValue := (new_nil, new_nil)

/-- Source `StdValue::int_val`: the constant pair `(Int(888), "")`. -/
def StdValue.int_val (_ : StdValue) : GosValue × GosValue :=
  (.Int 888, new_str "")

/-- Source `StdValue::uint_val`: a placeholder pair of nils. -/
def StdValue.uint_val (_ : StdValue) : GosValue × GosValue := (new_nil, new_nil)

/-- Source `StdValue::float_val`: a placeholder pair of nils. -/
def StdValue.float_val (_ : StdValue) : GosValue × GosValue := (new_nil, new_nil)

/-- Source `StdValue::bytes_val`: a placeholder pair of nils. -/
def StdValue.bytes_val (_ : StdValue) : GosValue × GosValue := (new_nil, new_nil)

/-- The argument list of a call expression. -/
def callArgs : Expr → Option (List Expr)
  | .Call _ _ args _ _ => some args
  | _ => none

/-- The ellipsis position of a call expression. -/
def callEllipsis : Expr → Option (Option Pos)
  | .Call _ _ _ e _ => some e
  | _ => none

/-- A two-entry registry: `Int` metadata at key 0 and a named type
wrapping it at key 1 (the shape of `type T int`). -/
def c1Metas : MetadataObjs := [.Int, .Named ⟨[], []⟩ (.NonPtr 0 false)]

/-- A one-field struct layout over the `Int` metadata of `c6Objs`. -/
def c6Fields : Fields := ⟨[.NonPtr 0 false], [("x", 0)]⟩

/-- A registry holding only `Int` metadata, with an empty struct arena. -/
def c6Objs : VMObjects := ⟨[.Int], []⟩

/-- Appending one element and reading at the old length yields it. -/
lemma get_append_singleton {α : Type} (l : List α) (a : α) :
    (l ++ [a]).get? l.length = some a := by
  induction l with
  | nil => rfl
  | cons x xs ih => exact ih

/-- Reading an in-bounds overwritten slot yields the new element. -/
lemma get_set_self {α : Type} (l : List α) (i : Nat) (a : α) (h : i < l.length) :
    (l.set i a).get? i = some a := by
  induction l generalizing i with
  | nil => simp at h
  | cons x xs ih =>
    cases i with
    | zero => rfl
    | succ n => simpa using ih n (by simpa using h)

/-- A successful read is in bounds. -/
lemma get_some_lt {α : Type} (l : List α) (i : Nat) (a : α) (h : l.get? i = some a) :
    i < l.length := by
  induction l generalizing i with
  | nil => simp at h
  | cons x xs ih =>
    cases i with
    | zero => simp
    | succ n => exact Nat.succ_lt_succ (ih n (by simpa using h))

/-- C4: from depth 0, `ptr_to` applied `d ≤ 7` times followed by
`unptr_to` applied `d` times returns the original handle (same key,
depth, and `is_type` flag); `ptr_to` at depth 7 fails, and `unptr_to` at
depth 0 fails. -/
theorem ptr_unptr_round_trip (k : MetadataKey) (t : Bool) (d : Nat) (h : d ≤ 7) :
    (iterM GosMetadata.ptr_to d (.NonPtr k t)).bind (iterM GosMetadata.unptr_to d)
      = some (.NonPtr k t)
    ∧ (GosMetadata.Ptr7 k t).ptr_to = none
    ∧ (GosMetadata.NonPtr k t).unptr_to = none := by
  refine ⟨?_, rfl, rfl⟩
  interval_cases d <;> rfl

/-- C4 witness at depth 7 on a concrete handle. -/
theorem ptr_unptr_round_trip_w :
    7 ≤ 7 ∧
    ((iterM GosMetadata.ptr_to 7 (.NonPtr 0 false)).bind (iterM GosMetadata.unptr_to 7)
        = some (.NonPtr 0 false)
      ∧ (GosMetadata.Ptr7 0 false).ptr_to = none
      ∧ (GosMetadata.NonPtr 0 false).unptr_to = none) :=
  ⟨by decide, ptr_unptr_round_trip 0 false 7 (by decide)⟩

/-- C2: `emit_import i` appends exactly the six instructions
`IMPORT(i)`, `JUMP_IF_NOT 4`, `PUSH_IMM 0`, `LOAD_FIELD(Package, Int)`,
`PRE_CALL(Closure)`, `CALL`, in that order, and the jump immediate 4
equals the length of the guarded four-instruction block. -/
theorem emit_import_guard (f : FunctionVal) (idx : Int) :
    emit_import f idx = { f with code := f.code ++ [
      ⟨.IMPORT, none, none, none, idx, 0⟩,
      ⟨.JUMP_IF_NOT, none, none, none, 4, 0⟩,
      ⟨.PUSH_IMM, none, none, none, 0, 0⟩,
      ⟨.LOAD_FIELD, some .Package, some .Int, none, 0, 0⟩,
      ⟨.PRE_CALL, some .Closure, none, none, 0, 0⟩,
      ⟨.CALL, none, none, none, 0, 0⟩] }
    ∧ ([(⟨.PUSH_IMM, none, none, none, 0, 0⟩ : Instruction),
        ⟨.LOAD_FIELD, some .Package, some .Int, none, 0, 0⟩,
        ⟨.PRE_CALL, some .Closure, none, none, 0, 0⟩,
        ⟨.CALL, none, none, none, 0, 0⟩].length : Int) = 4 := by
  refine ⟨?_, rfl⟩
  cases f with
  | mk consts code =>
    simp [emit_import, FunctionVal.emit_inst, Instruction.new]

/-- C7: storing to the blank left-hand side emits nothing and leaves the
function value entirely unchanged, for every `rhs_index`, compound op and
type tag. -/
theorem emit_store_blank (f : FunctionVal) (rhs_index : Int) (op : Option Opcode)
    (typ : ValueType) :
    emit_store f (.Primitive .Blank) rhs_index op typ = .ok f := rfl

/-- C10: the reflection accessor `int_val` returns the constant pair
`(Int 888, "")` for every wrapped value, while the `bool/uint/float/bytes`
accessors return nil placeholder pairs. -/
theorem int_val_constant (v : GosValue) :
    (StdValue.mk v).int_val = (GosValue.Int 888, new_str "")
    ∧ (StdValue.mk v).bool_val = (new_nil, new_nil)
    ∧ (StdValue.mk v).uint_val = (new_nil, new_nil)
    ∧ (StdValue.mk v).float_val = (new_nil, new_nil)
    ∧ (StdValue.mk v).bytes_val = (new_nil, new_nil) :=
  ⟨rfl, rfl, rfl, rfl, rfl⟩

/-- C3: loading a pool constant that is an integer in the signed 16-bit
immediate range appends exactly one `PUSH_IMM` carrying the type tag and
the value; an out-of-range integer appends exactly one `PUSH_CONST`
carrying the type tag and the pool index; -32768, 0 and 32767 are in
range while -32769 and 32768 are not. -/
theorem emit_load_const_fold (f : FunctionVal) (i : Int) (v : Int) (typ : ValueType)
    (h : f.const_val i = some (.Int v)) :
    (opIndexOk v = true →
      emit_load f (.Const i) typ =
        some { f with code := f.code ++ [⟨.PUSH_IMM, some typ, none, none, v, 0⟩] })
    ∧ (opIndexOk v = false →
      emit_load f (.Const i) typ =
        some { f with code := f.code ++ [⟨.PUSH_CONST, some typ, none, none, i, 0⟩] })
    ∧ opIndexOk (-32768) = true ∧ opIndexOk 0 = true ∧ opIndexOk 32767 = true
    ∧ opIndexOk (-32769) = false ∧ opIndexOk 32768 = false := by
  refine ⟨?_, ?_, by decide, by decide, by decide, by decide, by decide⟩ <;>
    intro hv <;>
    simp [emit_load, h, hv, FunctionVal.emit_inst, FunctionVal.emit_code, Instruction.new]

/-- C3 witness: a one-constant pool holding the integer 5. -/
theorem emit_load_const_fold_w :
    FunctionVal.const_val ⟨[.Int 5], []⟩ 0 = some (.Int 5) ∧
    ((opIndexOk 5 = true →
      emit_load ⟨[.Int 5], []⟩ (.Const 0) .Int =
        some { FunctionVal.mk [.Int 5] [] with
                 code := ([] : List Instruction) ++ [⟨.PUSH_IMM, some .Int, none, none, 5, 0⟩] })
    ∧ (opIndexOk 5 = false →
      emit_load ⟨[.Int 5], []⟩ (.Const 0) .Int =
        some { FunctionVal.mk [.Int 5] [] with
                 code := ([] : List Instruction) ++ [⟨.PUSH_CONST, some .Int, none, none, 0, 0⟩] })
    ∧ opIndexOk (-32768) = true ∧ opIndexOk 0 = true ∧ opIndexOk 32767 = true
    ∧ opIndexOk (-32769) = false ∧ opIndexOk 32768 = false) :=
  ⟨rfl, emit_load_const_fold ⟨[.Int 5], []⟩ 0 5 .Int rfl⟩

/-- C5 counterexample: a non-blank left-hand side (`Primitive(Const 0)`)
with the precondition satisfied (`rhs_index = -1`) reaches the
`unreachable!()` arm and aborts instead of appending an instruction. -/
theorem emit_store_const_lhs_aborts :
    emit_store ⟨[], []⟩ (.Primitive (.Const 0)) (-1) none .Int = .error .unreachableLhs
    ∧ LeftHandSide.Primitive (.Const 0) ≠ .Primitive .Blank :=
  ⟨rfl, by decide⟩

/-- C5 (amended to assignable left-hand sides): when the left-hand side
is an assignable site (local, up-value, package member, index/selector,
or deref — those with a slot), the assertion passes exactly under
`rhs_index = -1 ∨ op = none`; then exactly one instruction is appended
with `imm0` packed from the compound op via `code2index` (or else from
`rhs_index`) and `imm1` equal to the slot index; without the
precondition the emit aborts on the assertion. -/
theorem emit_store_packs (f : FunctionVal) (lhs : LeftHandSide) (rhs_index : Int)
    (op : Option Opcode) (typ : ValueType) (s : Int) (h : lhsSlot lhs = some s) :
    ((rhs_index = -1 ∨ op = none) →
      ∃ c t1 t2, emit_store f lhs rhs_index op typ =
        .ok { f with code := f.code ++
          [⟨c, some typ, t1, t2,
            (match op with | some o => code2index o | none => rhs_index), s⟩] })
    ∧ (¬(rhs_index = -1 ∨ op = none) →
      emit_store f lhs rhs_index op typ = .error .assertionFailed) := by
  cases lhs with
  | Primitive e =>
    cases e with
    | Const i => simp [lhsSlot] at h
    | LocalVar i =>
      obtain rfl : i = s := by simpa [lhsSlot] using h
      constructor
      · intro hpre
        refine ⟨.STORE_LOCAL, none, none, ?_⟩
        simp only [emit_store, isBlankLhs, Instruction.new, Instruction.set_imm2]
        rw [if_pos hpre]
        rfl
      · intro hpre
        simp only [emit_store, isBlankLhs, Instruction.new, Instruction.set_imm2]
        rw [if_neg hpre]
        rfl
    | UpValue i =>
      obtain rfl : i = s := by simpa [lhsSlot] using h
      constructor
      · intro hpre
        refine ⟨.STORE_UPVALUE, none, none, ?_⟩
        simp only [emit_store, isBlankLhs, Instruction.new, Instruction.set_imm2]
        rw [if_pos hpre]
        rfl
      · intro hpre
        simp only [emit_store, isBlankLhs, Instruction.new, Instruction.set_imm2]
        rw [if_neg hpre]
        rfl
    | PackageMember i =>
      obtain rfl : i = s := by simpa [lhsSlot] using h
      constructor
      · intro hpre
        refine ⟨.STORE_THIS_PKG_FIELD, some .Package, none, ?_⟩
        simp only [emit_store, isBlankLhs, Instruction.new, Instruction.set_imm2]
        rw [if_pos hpre]
        rfl
      · intro hpre
        simp only [emit_store, isBlankLhs, Instruction.new, Instruction.set_imm2]
        rw [if_neg hpre]
        rfl
    | BuiltIn o => simp [lhsSlot] at h
    | Blank => simp [lhsSlot] at h
  | IndexSelExpr info =>
    obtain rfl : info.index = s := by simpa [lhsSlot] using h
    constructor
    · intro hpre
      refine ⟨if info.is_index then .STORE_INDEX else .STORE_FIELD,
        some info.t1, some info.t2, ?_⟩
      simp only [emit_store, isBlankLhs, Instruction.new, Instruction.set_imm2]
      rw [if_pos hpre]
      rfl
    · intro hpre
      simp only [emit_store, isBlankLhs, Instruction.new, Instruction.set_imm2]
      rw [if_neg hpre]
      rfl
  | Deref i =>
    obtain rfl : i = s := by simpa [lhsSlot] using h
    constructor
    · intro hpre
      refine ⟨.STORE_DEREF, none, none, ?_⟩
      simp only [emit_store, isBlankLhs, Instruction.new, Instruction.set_imm2]
      rw [if_pos hpre]
      rfl
    · intro hpre
      simp only [emit_store, isBlankLhs, Instruction.new, Instruction.set_imm2]
      rw [if_neg hpre]
      rfl

/-- C5 witness: a plain store to local slot 3 with `rhs_index = -1` and
no compound op. -/
theorem emit_store_packs_w :
    lhsSlot (.Primitive (.LocalVar 3)) = some 3 ∧
    ((((-1 : Int) = -1 ∨ (none : Option Opcode) = none) →
      ∃ c t1 t2, emit_store ⟨[], []⟩ (.Primitive (.LocalVar 3)) (-1) none .Int =
        .ok { FunctionVal.mk [] [] with code := ([] : List Instruction) ++
          [⟨c, some .Int, t1, t2,
            (match (none : Option Opcode) with
             | some o => code2index o
             | none => (-1 : Int)), 3⟩] })
    ∧ (¬((-1 : Int) = -1 ∨ (none : Option Opcode) = none) →
      emit_store ⟨[], []⟩ (.Primitive (.LocalVar 3)) (-1) none .Int =
        .error .assertionFailed)) :=
  ⟨rfl, emit_store_packs ⟨[], []⟩ (.Primitive (.LocalVar 3)) (-1) none .Int 3 rfl⟩

/-- When a handle's immediate entry is not `Named`, its zero value does
not recurse, so it is independent of the fuel. -/
lemma zeroValImpl_fuel_indep (gm : GosMetadata) (mobjs : MetadataObjs)
    (h : notNamedAt gm mobjs = true) (f1 f2 : Nat) :
    zeroValImpl f1 gm mobjs = zeroValImpl f2 gm mobjs := by
  cases gm with
  | NonPtr k t =>
    simp only [zeroValImpl]
    cases hk : mobjs.get? k with
    | none => rfl
    | some mt =>
      cases mt <;> try rfl
      rw [notNamedAt, hk] at h
      simp at h
  | Untyped => simp only [zeroValImpl]
  | Ptr1 k t => simp only [zeroValImpl]
  | Ptr2 k t => simp only [zeroValImpl]
  | Ptr3 k t => simp only [zeroValImpl]
  | Ptr4 k t => simp only [zeroValImpl]
  | Ptr5 k t => simp only [zeroValImpl]
  | Ptr6 k t => simp only [zeroValImpl]
  | Ptr7 k t => simp only [zeroValImpl]

/-- C1 counterexample: for the registry of `type T int` (key 1 named,
key 0 its `Int` underlying), the zero value of the named type is
`Named(Int 0, m)` where `m` is the handle of the underlying `Int` entry
(key 0), not the handle of the named type itself (key 1). -/
theorem zero_val_named_cex :
    zero_val (.NonPtr 1 false) c1Metas = some (.Named (.Int 0) (.NonPtr 0 false))
    ∧ GosMetadata.NonPtr 0 false ≠ GosMetadata.NonPtr 1 false :=
  ⟨rfl, by decide⟩

/-- C1 (amended: the second component is the underlying metadata handle):
for a named entry at key `k` wrapping `gm`, where `gm` itself is not a
`Named` entry (the construction invariant) and its zero value is `v`
needing no fuel, `zero_val` returns `Named(v, gm)`; that value's
ValueType tag is `Named`, and any positive fuel suffices — the recursion
terminates because `Named` never wraps `Named`. -/
theorem zero_val_named (mobjs : MetadataObjs) (k : MetadataKey) (t : Bool)
    (ms : Methods) (gm : GosMetadata) (v : GosValue)
    (h1 : mobjs.get? k = some (.Named ms gm))
    (h2 : notNamedAt gm mobjs = true)
    (h3 : zeroValImpl 0 gm mobjs = some v) :
    zero_val (.NonPtr k t) mobjs = some (.Named v gm)
    ∧ (GosValue.Named v gm).typ = ValueType.Named
    ∧ ∀ fuel, 1 ≤ fuel → zeroValImpl fuel (.NonPtr k t) mobjs = some (.Named v gm) := by
  have key : ∀ n, zeroValImpl (n + 1) (.NonPtr k t) mobjs = some (.Named v gm) := by
    intro n
    have hgm := zeroValImpl_fuel_indep gm mobjs h2 n 0
    simp only [zeroValImpl]
    rw [h1]
    show Option.map (fun x => GosValue.Named x gm) (zeroValImpl n gm mobjs)
      = some (.Named v gm)
    rw [hgm, h3]
    rfl
  refine ⟨key mobjs.length, rfl, ?_⟩
  intro fuel hf
  obtain ⟨n, rfl⟩ : ∃ n, fuel = n + 1 := ⟨fuel - 1, by omega⟩
  exact key n

/-- C1 witness: the `type T int` registry. -/
theorem zero_val_named_w :
    c1Metas.get? 1 = some (.Named ⟨[], []⟩ (.NonPtr 0 false))
    ∧ notNamedAt (.NonPtr 0 false) c1Metas = true
    ∧ zeroValImpl 0 (.NonPtr 0 false) c1Metas = some (.Int 0)
    ∧ (zero_val (.NonPtr 1 false) c1Metas = some (.Named (.Int 0) (.NonPtr 0 false))
      ∧ (GosValue.Named (.Int 0) (.NonPtr 0 false)).typ = ValueType.Named
      ∧ ∀ fuel, 1 ≤ fuel →
          zeroValImpl fuel (.NonPtr 1 false) c1Metas
            = some (.Named (.Int 0) (.NonPtr 0 false))) :=
  ⟨rfl, rfl, rfl,
    zero_val_named c1Metas 1 false ⟨[], []⟩ (.NonPtr 0 false) (.Int 0) rfl rfl rfl⟩

/-- C6: for every struct metadata built by `new_struct`, the zero
instance stored in the new registry entry has its own `meta` field equal
to the freshly returned handle — the self-referential fix-up happens
during construction. -/
theorem new_struct_selfref (f : Fields) (objs : VMObjects) (gosm : GosMetadata)
    (objs' : VMObjects) (h : new_struct f objs = some (gosm, objs')) :
    ∃ f0 so, objs'.metas.get? objs.metas.length = some (.Struct f0 (.Struct so))
      ∧ so.meta = gosm ∧ gosm = .NonPtr objs.metas.length false := by
  unfold new_struct at h
  cases hz : f.fields.mapM (fun x => zero_val x objs.metas) with
  | none => rw [hz] at h; cases h
  | some zeros =>
    rw [hz] at h
    simp only [get_append_singleton, Option.some.injEq, Prod.mk.injEq] at h
    obtain ⟨h1, h2⟩ := h
    subst h1
    subst h2
    refine ⟨f, (StructObj.mk false .Untyped zeros).setMeta (.NonPtr objs.metas.length false),
      ?_, rfl, rfl⟩
    rw [get_set_self]
    simp

/-- C6 witness: a one-`Int`-field struct over the `c6Objs` registry. -/
theorem new_struct_selfref_w :
    new_struct c6Fields c6Objs = some (.NonPtr 1 false,
      ⟨[.Int, .Struct c6Fields (.Struct (.mk false (.NonPtr 1 false) [.Int 0]))],
       [.mk false .Untyped [.Int 0]]⟩)
    ∧ ∃ f0 so,
      (VMObjects.mk
        [.Int, .Struct c6Fields (.Struct (.mk false (.NonPtr 1 false) [.Int 0]))]
        [.mk false .Untyped [.Int 0]]).metas.get? c6Objs.metas.length
          = some (.Struct f0 (.Struct so))
      ∧ so.meta = GosMetadata.NonPtr 1 false
      ∧ GosMetadata.NonPtr 1 false = .NonPtr c6Objs.metas.length false :=
  ⟨rfl, new_struct_selfref c6Fields c6Objs _ _ rfl⟩

/-- Unfolding `method_index` when the receiver resolves to a `Named`
entry. -/
lemma method_index_unfold (self : GosMetadata) (k : MetadataKey) (metas : MetadataObjs)
    (m2 : Methods) (u2 : GosMetadata) (name : String)
    (hk : self.recv_meta_key = some k)
    (hg : metas.get? k = some (.Named m2 u2)) :
    method_index self name metas = mapGet m2.mapping name := by
  simp only [method_index, hk, hg]

/-- Further `add_method` calls with names other than `name` preserve the
`Named` shape of the receiver's entry and what `name` maps to. -/
lemma addMethods_keeps (self : GosMetadata) (k : MetadataKey) (name : String) (n : Int) :
    ∀ (adds : List (String × Bool)) (metas metas2 : MetadataObjs),
      self.recv_meta_key = some k →
      (∀ p ∈ adds, p.1 ≠ name) →
      (∃ m u, metas.get? k = some (.Named m u) ∧ mapGet m.mapping name = some n) →
      addMethods self adds metas = some metas2 →
      ∃ m u, metas2.get? k = some (.Named m u) ∧ mapGet m.mapping name = some n := by
  intro adds
  induction adds with
  | nil =>
    intro metas metas2 hk hfresh hinv hadd
    simp only [addMethods] at hadd
    obtain rfl := Option.some.inj hadd
    exact hinv
  | cons p rest ih =>
    intro metas metas2 hk hfresh hinv hadd
    obtain ⟨m, u, hm, hget⟩ := hinv
    simp only [addMethods, add_method, hk, hm] at hadd
    refine ih _ metas2 hk (fun q hq => hfresh q (List.mem_cons_of_mem p hq)) ?_ hadd
    have hne : p.1 ≠ name := hfresh p (List.mem_cons_self p rest)
    refine ⟨_, u, get_set_self metas k _ (get_some_lt metas k _ hm), ?_⟩
    simp only [mapInsert, mapGet]
    rw [if_neg hne]
    exact hget

/-- Looking up a name right after inserting it yields the inserted
index. -/
lemma mapGet_insert_self (mp : List (String × Int)) (name : String) (v : Int) :
    mapGet (mapInsert mp name v) name = some v := by
  simp [mapInsert, mapGet]

/-- C8: adding a fresh method to a named type with `n` members maps the
new name to index `n` (the member count before the addition), and the
index `name` resolves to is unchanged by any number of further
`add_method` calls with names distinct from `name`. -/
theorem add_method_index (self : GosMetadata) (k : MetadataKey) (m : Methods)
    (u : GosMetadata) (name : String) (precv : Bool) (metas metas' : MetadataObjs)
    (hk : self.recv_meta_key = some k)
    (hm : metas.get? k = some (.Named m u))
    (_hfresh : mapGet m.mapping name = none)
    (hadd : add_method self name precv metas = some metas') :
    method_index self name metas' = some (m.members.length : Int)
    ∧ ∀ adds : List (String × Bool), (∀ p ∈ adds, p.1 ≠ name) →
        ∀ metas2, addMethods self adds metas' = some metas2 →
          method_index self name metas2 = some (m.members.length : Int) := by
  simp only [add_method, hk, hm] at hadd
  obtain rfl := Option.some.inj hadd
  have hlen : (((m.members ++ [(⟨precv, none⟩ : MethodDesc)]).length : Int) - 1)
      = (m.members.length : Int) := by
    simp
  have hg := get_set_self metas k
    (MetadataType.Named
      (Methods.mk (m.members ++ [(⟨precv, none⟩ : MethodDesc)])
        (mapInsert m.mapping name
          (((m.members ++ [(⟨precv, none⟩ : MethodDesc)]).length : Int) - 1))) u)
    (get_some_lt metas k _ hm)
  have hmap :
      mapGet
        (mapInsert m.mapping name
          (((m.members ++ [(⟨precv, none⟩ : MethodDesc)]).length : Int) - 1)) name
        = some (m.members.length : Int) := by
    rw [mapGet_insert_self, hlen]
  constructor
  · rw [method_index_unfold self k _ _ u name hk hg]
    exact hmap
  · intro adds hf metas2 h2
    obtain ⟨m3, u3, hg3, hmap3⟩ :=
      addMethods_keeps self k name (m.members.length : Int) adds _ metas2 hk hf
        ⟨_, u, hg, hmap⟩ h2
    rw [method_index_unfold self k _ _ u3 name hk hg3]
    exact hmap3

/-- C8 witness: adding method "foo" to the empty-table named type of
`c1Metas`, then two further fresh additions. -/
theorem add_method_index_w :
    GosMetadata.recv_meta_key (.NonPtr 1 false) = some 1
    ∧ c1Metas.get? 1 = some (.Named ⟨[], []⟩ (.NonPtr 0 false))
    ∧ mapGet ([] : List (String × Int)) "foo" = none
    ∧ add_method (.NonPtr 1 false) "foo" false c1Metas
        = some [.Int, .Named ⟨[⟨false, none⟩], [("foo", 0)]⟩ (.NonPtr 0 false)]
    ∧ (method_index (.NonPtr 1 false) "foo"
          [.Int, .Named ⟨[⟨false, none⟩], [("foo", 0)]⟩ (.NonPtr 0 false)]
        = some 0
      ∧ ∀ adds : List (String × Bool), (∀ p ∈ adds, p.1 ≠ "foo") →
          ∀ metas2,
            addMethods (.NonPtr 1 false) adds
                [.Int, .Named ⟨[⟨false, none⟩], [("foo", 0)]⟩ (.NonPtr 0 false)]
              = some metas2 →
            method_index (.NonPtr 1 false) "foo" metas2 = some 0) :=
  ⟨rfl, rfl, rfl, rfl,
    add_method_index (.NonPtr 1 false) 1 ⟨[], []⟩ (.NonPtr 0 false) "foo" false
      c1Metas _ rfl rfl rfl rfl⟩

/-- C9: because the loop condition's third conjunct tests
`ellipsis.is_some()` and `ellipsis` starts as `None`, the argument loop
body never runs: for every scanner output, every fuel, every starting
state and every behavior of the expression subroutine, the returned
`CallExpr` has an empty argument list and no ellipsis. -/
theorem call_loop_no_args (rhsOrType : PState → Expr × PState) (fuel : Nat)
    (s : PState) (func : Expr) :
    callArgs (parse_call_or_conversion rhsOrType fuel s func).1 = some []
    ∧ callEllipsis (parse_call_or_conversion rhsOrType fuel s func).1 = some none := by
  have hloop : ∀ s0 : PState, callArgsLoop rhsOrType fuel s0 [] none = (s0, [], none) := by
    intro s0
    cases fuel with
    | zero => rfl
    | succ n => simp [callArgsLoop]
  constructor <;>
    · unfold parse_call_or_conversion
      simp only [hloop]
      rfl
